import Mathlib

/-!
Verification development for the iMessage viewer (`src/main.rs`).

The program is a read-only desktop viewer for `chat.db` message stores.  Its
core pieces, shallowly embedded here, are:

* `time` — converts the store's raw integer timestamps (nanoseconds since
  2001-01-01T00:00:00 UTC) into UTC calendar timestamps via the `chrono`
  library (`src/main.rs` lines 105-112);
* the tri-state load slot `Handle<T>` holding `State::{Empty, Fetching,
  Ready}` behind a mutex, with `set` / `get` and the `load` orchestration
  (`src/main.rs` lines 50-75 and 125-137);
* the two SQL queries `initial_load` (conversation list) and `load_messages`
  (message list of one conversation), embedded as list comprehensions over a
  relational model of the four tables involved (`src/main.rs` lines 139-206).

Modelling conventions:

* Machine integers (`i64` SQLite INTEGER columns, Rust `i64`) are embedded as
  `Int`; where the 64-bit bound matters it appears as an explicit `i64Range`
  hypothesis.  Rust `/` on `i64` is truncating division, embedded as
  `Int.tdiv`.
* `chrono`'s `NaiveDateTime` is embedded as its timestamp decomposition
  (whole seconds since 1970-01-01T00:00:00 UTC plus a nanosecond subsecond
  part).  `NaiveDateTime::from_timestamp` panics outside the representable
  proleptic Gregorian range (years -262144 to 262143); panics are embedded as
  `Option.none`.  The range bounds are computed from a civil-calendar
  day-count function rather than hard-coded.
* The SQLite driver used by the program (`sqlx`'s SQLite backend) decodes a
  SQL NULL into the default value of a non-`Option` Rust target type: for
  `String` targets the driver reads the value's byte slice, which is empty
  for NULL, and produces `""` (there is no null check on this path, unlike
  the Postgres/MySQL backends).  The `h.id` column produced by the LEFT JOIN
  of the message query is therefore embedded as `Option String` at the SQL
  level and decoded by `decodeText`, which maps NULL to `""`.
-/

/-! ## Calendar arithmetic (model of the external `chrono` library) -/

/-- Number of days from 1970-01-01 to the civil (proleptic Gregorian) date
`y-m-d`.  Standard civil-from-days arithmetic, used here to compute the
epoch constants of the `chrono` model rather than hard-coding them. -/
def daysFromCivil (y m d : Int) : Int :=
  let y2 : Int := if m ≤ 2 then y - 1 else y
  let era : Int := Int.fdiv y2 400
  let yoe : Int := y2 - era * 400
  let doy : Int := Int.fdiv (153 * (m + (if 2 < m then -3 else 9)) + 2) 5 + d - 1
  let doe : Int := yoe * 365 + Int.fdiv yoe 4 - Int.fdiv yoe 100 + doy
  era * 146097 + doe - 719468

/-- Smallest year representable by `chrono`'s `NaiveDate` (`i32::MIN >> 13`). -/
def chronoMinYear : Int := -262144

/-- Largest year representable by `chrono`'s `NaiveDate` (`i32::MAX >> 13`). -/
def chronoMaxYear : Int := 262143

/-- Smallest epoch-second count representable by `chrono`'s `NaiveDateTime`:
midnight on `chronoMinYear`-01-01. -/
def chronoMinTimestamp : Int := 86400 * daysFromCivil chronoMinYear 1 1

/-- Largest epoch-second count representable by `chrono`'s `NaiveDateTime`:
23:59:59 on `chronoMaxYear`-12-31. -/
def chronoMaxTimestamp : Int := 86400 * daysFromCivil chronoMaxYear 12 31 + 86399

/-- A UTC calendar timestamp (`chrono`'s `DateTime<Utc>`), embedded by its
timestamp decomposition: whole seconds since 1970-01-01T00:00:00 UTC and a
sub-second nanosecond part. -/
structure DateTime where
  secs : Int
  nsecs : Nat
  deriving DecidableEq

/-- Chronological order on embedded timestamps. -/
def DateTime.le (a b : DateTime) : Prop :=
  a.secs < b.secs ∨ (a.secs = b.secs ∧ a.nsecs ≤ b.nsecs)

instance (a b : DateTime) : Decidable (a.le b) :=
  inferInstanceAs (Decidable (_ ∨ _))

/-- `chrono`'s `NaiveDateTime::from_timestamp(secs, nsecs)` (composed with the
infallible `and_local_timezone(Utc)`): defined exactly when `secs` lies in the
representable range, and a panic otherwise, embedded as `none`. -/
def fromTimestamp (secs : Int) (nsecs : Nat) : Option DateTime :=
  if chronoMinTimestamp ≤ secs ∧ secs ≤ chronoMaxTimestamp then
    some { secs := secs, nsecs := nsecs }
  else
    none

/-! ## The timestamp normalizer `time` (`src/main.rs` lines 105-112) -/

/-- The constant `epoch_correction` of `time`: the timestamp of
2001-01-01T00:00:00 UTC, i.e. the offset in seconds between the store's
custom epoch and the standard epoch. -/
def epoch_correction : Int := 86400 * daysFromCivil 2001 1 1

/-- The epoch-second count computed inside `time`:
`(raw / 1000000000) + epoch_correction`, with Rust's truncating `i64`
division embedded as `Int.tdiv`. -/
def timeSecs (raw : Int) : Int := Int.tdiv raw 1000000000 + epoch_correction

/-- `fn time(raw: i64) -> DateTime<Utc>`: divide the raw nanosecond count by
10^9 (truncating), add `epoch_correction`, and convert to a calendar
timestamp with zero sub-second part.  `none` models the panic of
`NaiveDateTime::from_timestamp` on an out-of-range second count. -/
def time (raw : Int) : Option DateTime := fromTimestamp (timeSecs raw) 0

/-- The range of Rust's `i64` (and of SQLite INTEGER column values). -/
def i64Range (n : Int) : Prop :=
  -9223372036854775808 ≤ n ∧ n ≤ 9223372036854775807

/-! ## The async load slot (`src/main.rs` lines 50-75 and 125-137) -/

/-- `enum State<T> { Empty, Fetching, Ready(T) }`. -/
inductive State (T : Type) where
  | Empty : State T
  | Fetching : State T
  | Ready : T → State T
  deriving DecidableEq

/-- `Handle<T>` wraps `Arc<Mutex<State<T>>>`; the shared mutex cell is
embedded as its current contents, with mutation as explicit state passing. -/
def Handle (T : Type) : Type := State T

/-- `Handle::set`: overwrite the cell's contents; returns the contents of the
cell after the write. -/
def Handle.set {T : Type} (_cell : Handle T) (s : State T) : Handle T := s

/-- `Handle::get`: lock the cell and observe its current contents. -/
def Handle.get {T : Type} (cell : Handle T) : State T := cell

/-- The synchronous prefix of `MyEguiApp::load` (line 129): the slot is set to
`Fetching` before the asynchronous operation is spawned. -/
def load_sync {T : Type} (cell : Handle T) : Handle T :=
  cell.set State.Fetching

/-- The completion of the task spawned by `MyEguiApp::load` (lines 131-136):
on `Ok(val)` the slot is set to `Ready(val)`; on `Err(e)` the error is printed
to the diagnostic stream (modelled by appending to `log`) and the slot is not
touched. -/
def load_complete {T : Type} (cell : Handle T) (result : Except String T)
    (log : List String) : Handle T × List String :=
  match result with
  | Except.ok val => (cell.set (State.Ready val), log)
  | Except.error e => (cell, log ++ [e])

/-! ## Domain entities (`src/main.rs` lines 77-96) -/

/-- `struct Chat { name: String, last_active: DateTime<Utc> }`. -/
structure Chat where
  name : String
  last_active : DateTime
  deriving DecidableEq

/-- `enum Sender { Me, SomeoneElse(String) }`. -/
inductive Sender where
  | Me : Sender
  | SomeoneElse : String → Sender
  deriving DecidableEq

/-- `struct Message { text: String, sender: Sender, date: DateTime<Utc> }`. -/
structure Message where
  text : String
  sender : Sender
  date : DateTime
  deriving DecidableEq

/-! ## Relational model of the backing store (`chat.db` schema, §6 of the
spec): the four tables touched by the two queries. -/

/-- One row of the `message` table.  `handle_id` is nullable (`NULL` compares
unequal to every `handle.ROWID`, so a NULL `handle_id` never joins). -/
structure MessageRow where
  rowid : Int
  text : String
  date : Int
  handle_id : Option Int
  is_from_me : Bool
  deriving DecidableEq

/-- One row of the `chat` table. -/
structure ChatRow where
  rowid : Int
  chat_identifier : String
  deriving DecidableEq

/-- One row of the `chat_message_join` table. -/
structure ChatMessageJoinRow where
  chat_id : Int
  message_id : Int
  deriving DecidableEq

/-- One row of the `handle` table. -/
structure HandleRow where
  rowid : Int
  id : String
  deriving DecidableEq

/-- The backing store: the four tables, each a list of rows. -/
structure Store where
  message : List MessageRow
  chat : List ChatRow
  chat_message_join : List ChatMessageJoinRow
  handle : List HandleRow
  deriving DecidableEq

/-- Well-formedness of a store: every `message.date` value fits in an `i64`
(SQLite INTEGER columns are 64-bit, and the program decodes them as `i64`). -/
def Store.WF (st : Store) : Prop := ∀ m ∈ st.message, i64Range m.date

instance (st : Store) : Decidable st.WF :=
  inferInstanceAs (Decidable (∀ m ∈ st.message, _ ∧ _))

/-! ## The message query (`src/main.rs` lines 139-176) -/

/-- One result row of the message query, before driver decoding: the selected
columns `m.text`, `m.date`, `h.id`, `m.is_from_me`.  The `h.id` column comes
from a LEFT JOIN, so it is NULL (`none`) when no handle row matches. -/
structure MessageQueryRow where
  text : String
  date : Int
  sender : Option String
  is_from_me : Bool
  deriving DecidableEq

/-- `LEFT JOIN handle h ON m.handle_id = h.ROWID`: the handle rows matching
`m`, or a single NULL row when none match. -/
def leftJoinHandle (handles : List HandleRow) (m : MessageRow) : List (Option HandleRow) :=
  match handles.filter (fun h => decide (m.handle_id = some h.rowid)) with
  | [] => [none]
  | hs => hs.map some

/-- The FROM/JOIN/WHERE part of the message query: `message` joined with
`chat_message_join` and `chat`, left-joined with `handle`, filtered to the
chat whose `chat_identifier` equals the bound parameter. -/
def messageRows (st : Store) (chatId : String) : List MessageQueryRow :=
  st.message.flatMap fun m =>
    st.chat_message_join.flatMap fun cmj =>
      st.chat.flatMap fun c =>
        if m.rowid = cmj.message_id ∧ cmj.chat_id = c.rowid ∧
            c.chat_identifier = chatId then
          (leftJoinHandle st.handle m).map fun h =>
            { text := m.text, date := m.date, sender := h.map HandleRow.id,
              is_from_me := m.is_from_me }
        else []

/-- `ORDER BY date` on message-query rows (ascending). -/
def msgRowLE (a b : MessageQueryRow) : Prop := a.date ≤ b.date

instance : DecidableRel msgRowLE := fun a b => Int.decLe a.date b.date

/-- Driver decoding of a SQL TEXT value into a Rust `String`: `sqlx`'s SQLite
backend reads the value's byte slice, which is empty for NULL, so NULL
decodes to `""` rather than an error. -/
def decodeText (v : Option String) : String := v.getD ""

/-- The row-to-entity mapping of `load_messages` (lines 162-172):
`Message { text, date: time(timestamp), sender: if is_from_me { Me } else
{ SomeoneElse(sender) } }`.  `none` propagates a panic of `time`. -/
def rowToMessage (r : MessageQueryRow) : Option Message :=
  (time r.date).map fun dt =>
    { text := r.text
      sender := if r.is_from_me then Sender.Me else Sender.SomeoneElse (decodeText r.sender)
      date := dt }

/-- Total variant of `rowToMessage`, equal to it whenever `time` does not
panic (see `rowToMessage_eq_some`). -/
def rowMessage (r : MessageQueryRow) : Message :=
  { text := r.text
    sender := if r.is_from_me then Sender.Me else Sender.SomeoneElse (decodeText r.sender)
    date := { secs := timeSecs r.date, nsecs := 0 } }

/-- Collect a list of fallible results, failing if any element fails: models
running the row mapping over the whole result set (a panic anywhere aborts). -/
def collectSome {α β : Type} (f : α → Option β) : List α → Option (List β)
  | [] => some []
  | x :: xs =>
    match f x, collectSome f xs with
    | some y, some ys => some (y :: ys)
    | _, _ => none

/-- The pure content of `MyEguiApp::load_messages` (lines 139-176): the rows
of the message query for the given conversation, ordered by `date` ascending,
each mapped to a `Message`.  `none` models a `time` panic; database errors
happen outside this pure computation and are handled by `load_complete`. -/
def list_messages (st : Store) (chatId : String) : Option (List Message) :=
  collectSome rowToMessage (List.insertionSort msgRowLE (messageRows st chatId))

/-! ## The conversation query (`src/main.rs` lines 178-206) -/

/-- One result row of the conversation query: `max(m.date)` and
`c.chat_identifier`. -/
structure ChatQueryRow where
  max_date : Int
  chat_identifier : String
  deriving DecidableEq

/-- The FROM/JOIN part of the conversation query: each joined row contributes
`(m.date, c.chat_identifier)`. -/
def chatJoinRows (st : Store) : List (Int × String) :=
  st.message.flatMap fun m =>
    st.chat_message_join.flatMap fun cmj =>
      st.chat.flatMap fun c =>
        if m.rowid = cmj.message_id ∧ cmj.chat_id = c.rowid then
          [(m.date, c.chat_identifier)]
        else []

/-- `ORDER BY max(m.date) DESC` on conversation-query rows. -/
def chatRowGE (a b : ChatQueryRow) : Prop := b.max_date ≤ a.max_date

instance : DecidableRel chatRowGE := fun a b => Int.decLe b.max_date a.max_date

/-- `GROUP BY c.chat_identifier` with the `max(m.date)` aggregate, then
`ORDER BY max(m.date) DESC`: one row per distinct identifier, carrying the
maximum date of its group.  (The `getD 0` default is unreachable: every group
key comes from at least one joined row, so its group is nonempty.) -/
def conversationGroups (st : Store) : List ChatQueryRow :=
  let rows := chatJoinRows st
  ((rows.map Prod.snd).dedup).map fun k =>
    { max_date := (((rows.filter (fun r => decide (r.2 = k))).map Prod.fst).max?).getD 0
      chat_identifier := k }

/-- The grouped rows in `ORDER BY max(m.date) DESC` order. -/
def conversationRows (st : Store) : List ChatQueryRow :=
  List.insertionSort chatRowGE (conversationGroups st)

/-- The row-to-entity mapping of `initial_load` (lines 197-200):
`Chat { name, last_active: time(timestamp) }`. -/
def rowToChat (r : ChatQueryRow) : Option Chat :=
  (time r.max_date).map fun dt => { name := r.chat_identifier, last_active := dt }

/-- Total variant of `rowToChat`, equal to it whenever `time` does not panic
(see `rowToChat_eq_some`). -/
def rowChat (r : ChatQueryRow) : Chat :=
  { name := r.chat_identifier
    last_active := { secs := timeSecs r.max_date, nsecs := 0 } }

/-- The pure content of `MyEguiApp::initial_load` (lines 178-206): the
grouped, sorted conversation rows mapped to `Chat` entities. -/
def list_conversations (st : Store) : Option (List Chat) :=
  collectSome rowToChat (conversationRows st)

/-! ## Helper lemmas -/

/-- `Decidable` instance for the `i64` range predicate. -/
instance (n : Int) : Decidable (i64Range n) :=
  inferInstanceAs (Decidable (_ ∧ _))

theorem epoch_correction_eq : epoch_correction = 978307200 := by decide

theorem chronoMinTimestamp_eq : chronoMinTimestamp = -8334632851200 := by decide

theorem chronoMaxTimestamp_eq : chronoMaxTimestamp = 8210298412799 := by decide

/-- Truncating division by a positive divisor is monotone. -/
theorem tdiv_le_tdiv_of_le {a b c : Int} (hc : 0 < c) (h : a ≤ b) :
    a.tdiv c ≤ b.tdiv c := by
  rcases le_or_lt 0 a with ha | ha
  · rw [Int.tdiv_eq_ediv ha hc.le, Int.tdiv_eq_ediv (le_trans ha h) hc.le]
    exact Int.ediv_le_ediv hc h
  · rcases le_or_lt 0 b with hb | hb
    · have h1 : (0:Int) ≤ (-a).tdiv c := Int.tdiv_nonneg (by omega) hc.le
      have h2 : (0:Int) ≤ b.tdiv c := Int.tdiv_nonneg hb hc.le
      have h3 := Int.neg_tdiv a c
      omega
    · have h1 : (0:Int) ≤ -b := by omega
      have h2 : -b ≤ -a := by omega
      have h3 : (-b).tdiv c ≤ (-a).tdiv c := by
        rw [Int.tdiv_eq_ediv h1 hc.le, Int.tdiv_eq_ediv (le_trans h1 h2) hc.le]
        exact Int.ediv_le_ediv hc h2
      have h4 := Int.neg_tdiv a c
      have h5 := Int.neg_tdiv b c
      omega

/-- The epoch-second count computed by `time` is monotone in the raw value. -/
theorem timeSecs_mono {a b : Int} (h : a ≤ b) : timeSecs a ≤ timeSecs b := by
  unfold timeSecs
  have := tdiv_le_tdiv_of_le (a := a) (b := b) (c := 1000000000) (by norm_num) h
  omega

/-- For any `i64` raw value the second count computed by `time` lies well
inside chrono's representable range. -/
theorem timeSecs_in_chrono_range {raw : Int} (h : i64Range raw) :
    chronoMinTimestamp ≤ timeSecs raw ∧ timeSecs raw ≤ chronoMaxTimestamp := by
  obtain ⟨h1, h2⟩ := h
  have hlo := timeSecs_mono h1
  have hhi := timeSecs_mono h2
  have e1 : timeSecs (-9223372036854775808) = -8245064836 := by decide
  have e2 : timeSecs 9223372036854775807 = 10201679236 := by decide
  rw [chronoMinTimestamp_eq, chronoMaxTimestamp_eq]
  omega

/-- On `i64` inputs `time` never panics and returns the second count
`timeSecs raw` with zero sub-second part. -/
theorem time_eq_some {raw : Int} (h : i64Range raw) :
    time raw = some { secs := timeSecs raw, nsecs := 0 } := by
  unfold time fromTimestamp
  rw [if_pos (timeSecs_in_chrono_range h)]

/-- `collectSome` succeeds and equals the plain map when every element
succeeds. -/
theorem collectSome_eq_map {α β : Type} {f : α → Option β} {g : α → β}
    {l : List α} (h : ∀ x ∈ l, f x = some (g x)) :
    collectSome f l = some (l.map g) := by
  induction l with
  | nil => rfl
  | cons x xs ih =>
    have hx : f x = some (g x) := h x (List.mem_cons_self x xs)
    have hxs := ih fun y hy => h y (List.mem_cons_of_mem x hy)
    simp [collectSome, hx, hxs]

/-- `rowToMessage` agrees with its total variant on `i64` dates. -/
theorem rowToMessage_eq_some {r : MessageQueryRow} (h : i64Range r.date) :
    rowToMessage r = some (rowMessage r) := by
  unfold rowToMessage rowMessage
  rw [time_eq_some h]
  rfl

/-- `rowToChat` agrees with its total variant on `i64` dates. -/
theorem rowToChat_eq_some {r : ChatQueryRow} (h : i64Range r.max_date) :
    rowToChat r = some (rowChat r) := by
  unfold rowToChat rowChat
  rw [time_eq_some h]
  rfl

/-- Every row of the message query takes its `date` from some `message` row. -/
theorem date_of_mem_messageRows {st : Store} {cid : String} {r : MessageQueryRow}
    (h : r ∈ messageRows st cid) : ∃ m ∈ st.message, r.date = m.date := by
  simp only [messageRows, List.mem_flatMap] at h
  obtain ⟨m, hm, cmj, _, c, _, hr⟩ := h
  by_cases hcond : m.rowid = cmj.message_id ∧ cmj.chat_id = c.rowid ∧
      c.chat_identifier = cid
  · rw [if_pos hcond] at hr
    simp only [List.mem_map] at hr
    obtain ⟨h?, _, rfl⟩ := hr
    exact ⟨m, hm, rfl⟩
  · rw [if_neg hcond] at hr
    simp at hr

/-- Every joined row of the conversation query takes its date from some
`message` row. -/
theorem fst_of_mem_chatJoinRows {st : Store} {p : Int × String}
    (h : p ∈ chatJoinRows st) : ∃ m ∈ st.message, p.1 = m.date := by
  simp only [chatJoinRows, List.mem_flatMap] at h
  obtain ⟨m, hm, cmj, _, c, _, hp⟩ := h
  by_cases hcond : m.rowid = cmj.message_id ∧ cmj.chat_id = c.rowid
  · rw [if_pos hcond] at hp
    simp only [List.mem_singleton] at hp
    exact ⟨m, hm, by rw [hp]⟩
  · rw [if_neg hcond] at hp
    simp at hp

/-- The aggregated `max(m.date)` of every conversation row is the date of one
of the joined rows of its group. -/
theorem max_date_of_mem_conversationRows {st : Store} {r : ChatQueryRow}
    (hr : r ∈ conversationRows st) : ∃ p ∈ chatJoinRows st, r.max_date = p.1 := by
  unfold conversationRows at hr
  rw [List.mem_insertionSort] at hr
  unfold conversationGroups at hr
  simp only [List.mem_map] at hr
  obtain ⟨k, hk, rfl⟩ := hr
  rw [List.mem_dedup] at hk
  obtain ⟨p, hp, hpk⟩ := List.mem_map.mp hk
  have hpd : p.1 ∈ ((chatJoinRows st).filter (fun q => decide (q.2 = k))).map Prod.fst :=
    List.mem_map_of_mem Prod.fst (List.mem_filter.mpr ⟨hp, by simp [hpk]⟩)
  obtain ⟨mx, hmx⟩ : ∃ mx,
      (((chatJoinRows st).filter (fun q => decide (q.2 = k))).map Prod.fst).max? = some mx := by
    cases hq : (((chatJoinRows st).filter (fun q => decide (q.2 = k))).map Prod.fst).max? with
    | none =>
      rw [List.max?_eq_none_iff] at hq
      rw [hq] at hpd
      simp at hpd
    | some mx => exact ⟨mx, rfl⟩
  have hmem := List.max?_mem max_choice hmx
  obtain ⟨q, hq, hq1⟩ := List.mem_map.mp hmem
  exact ⟨q, (List.mem_filter.mp hq).1, by simp [hmx, ← hq1]⟩

/-- In a well-formed store every message-query row has an `i64` date. -/
theorem messageRows_date_i64 {st : Store} (hwf : st.WF) {cid : String}
    {r : MessageQueryRow} (hr : r ∈ messageRows st cid) : i64Range r.date := by
  obtain ⟨m, hm, he⟩ := date_of_mem_messageRows hr
  rw [he]
  exact hwf m hm

/-- In a well-formed store every conversation row has an `i64` maximum date. -/
theorem conversationRows_date_i64 {st : Store} (hwf : st.WF)
    {r : ChatQueryRow} (hr : r ∈ conversationRows st) : i64Range r.max_date := by
  obtain ⟨p, hp, he⟩ := max_date_of_mem_conversationRows hr
  obtain ⟨m, hm, he2⟩ := fst_of_mem_chatJoinRows hp
  rw [he, he2]
  exact hwf m hm

instance : IsTotal MessageQueryRow msgRowLE :=
  ⟨fun a b => Int.le_total a.date b.date⟩

instance : IsTrans MessageQueryRow msgRowLE :=
  ⟨fun _ _ _ h1 h2 => le_trans h1 h2⟩

instance : IsTotal ChatQueryRow chatRowGE :=
  ⟨fun a b => (Int.le_total b.max_date a.max_date).symm.symm⟩

instance : IsTrans ChatQueryRow chatRowGE :=
  ⟨fun _ _ _ h1 h2 => le_trans h2 h1⟩

/-- On a well-formed store the message load succeeds and returns the mapped,
date-sorted query rows. -/
theorem list_messages_eq {st : Store} (hwf : st.WF) (cid : String) :
    list_messages st cid =
      some ((List.insertionSort msgRowLE (messageRows st cid)).map rowMessage) := by
  unfold list_messages
  exact collectSome_eq_map fun r hr =>
    rowToMessage_eq_some (messageRows_date_i64 hwf ((List.mem_insertionSort msgRowLE).mp hr))

/-- On a well-formed store the conversation load succeeds and returns the
mapped, grouped, sorted query rows. -/
theorem list_conversations_eq {st : Store} (hwf : st.WF) :
    list_conversations st = some ((conversationRows st).map rowChat) := by
  unfold list_conversations
  exact collectSome_eq_map fun r hr =>
    rowToChat_eq_some (conversationRows_date_i64 hwf hr)

/-- Ordering of the epoch-second counts transfers to `DateTime.le` on the
timestamps built by the total row mappings. -/
theorem dateTime_le_of_le {x y : Int} (h : x ≤ y) :
    DateTime.le { secs := x, nsecs := 0 } { secs := y, nsecs := 0 } := by
  rcases lt_or_eq_of_le h with h2 | h2
  · exact Or.inl h2
  · exact Or.inr ⟨h2, le_refl 0⟩

/-! ## Claim theorems -/

/-- C1: for every raw `i64` timestamp, `time` returns the UTC calendar
timestamp whose standard-epoch second count equals the raw value divided by
10^9 with truncation toward zero, plus the constant offset `epoch_correction`
(978307200 seconds, the distance from 1970-01-01T00:00:00 UTC to
2001-01-01T00:00:00 UTC), with the sub-second part zero. -/
theorem time_normalizes (raw : Int) (h : i64Range raw) :
    time raw = some { secs := Int.tdiv raw 1000000000 + epoch_correction, nsecs := 0 } ∧
    epoch_correction = 978307200 :=
  ⟨time_eq_some h, epoch_correction_eq⟩

/-- Witness for C1: a raw value of -1.5 seconds truncates toward zero to -1
second before the epoch correction. -/
theorem time_normalizes_witness :
    i64Range (-1500000000) ∧
    time (-1500000000) = some { secs := 978307199, nsecs := 0 } :=
  ⟨by decide, by rw [(time_normalizes (-1500000000) (by decide)).1]; decide⟩

/-- C2: after the synchronous part of `load` runs, `get` observes `Fetching`;
after the operation resolves with `Ok(v)`, `get` observes `Ready v` with
exactly the produced value. -/
theorem load_marks_fetching_then_ready {T : Type} (cell : Handle T) (v : T)
    (log : List String) :
    (load_sync cell).get = State.Fetching ∧
    ((load_complete (load_sync cell) (Except.ok v) log).1).get = State.Ready v :=
  ⟨rfl, rfl⟩

/-- C3: when the operation resolves with an error, the error is written to the
diagnostic stream and the slot is left untouched — in particular, a slot in
`Fetching` state stays in `Fetching` state, and no `Ready` or error state is
stored. -/
theorem load_error_leaves_fetching {T : Type} (cell : Handle T) (e : String)
    (log : List String) :
    load_complete cell (Except.error e) log = (cell, log ++ [e]) ∧
    ((load_complete (load_sync cell) (Except.error e) log).1).get = State.Fetching ∧
    (load_complete (load_sync cell) (Except.error e) log).2 = log ++ [e] :=
  ⟨rfl, rfl, rfl⟩

/-- C9: `get` after `set s` returns exactly `s`, whatever the slot previously
held (including a previous `Ready` value). -/
theorem get_after_set {T : Type} (cell : Handle T) (s : State T) :
    (cell.set s).get = s :=
  rfl

/-- C8: `time` fails (its embedded panic branch, `none`) exactly when the
computed standard-epoch second count lies outside chrono's representable
timestamp range, and for every raw input whose second count is in range it
returns a timestamp without aborting. -/
theorem time_fails_iff_out_of_range (raw : Int) :
    (time raw = none ↔
      (timeSecs raw < chronoMinTimestamp ∨ chronoMaxTimestamp < timeSecs raw)) ∧
    (chronoMinTimestamp ≤ timeSecs raw ∧ timeSecs raw ≤ chronoMaxTimestamp →
      time raw = some { secs := timeSecs raw, nsecs := 0 }) := by
  unfold time fromTimestamp
  constructor
  · constructor
    · intro h
      by_cases hc : chronoMinTimestamp ≤ timeSecs raw ∧ timeSecs raw ≤ chronoMaxTimestamp
      · rw [if_pos hc] at h
        exact absurd h (by simp)
      · omega
    · intro h
      rw [if_neg (by omega)]
  · intro h
    rw [if_pos h]

/-- Witness for C8: the in-range branch at raw value 0. -/
theorem time_fails_iff_out_of_range_witness :
    (chronoMinTimestamp ≤ timeSecs 0 ∧ timeSecs 0 ≤ chronoMaxTimestamp) ∧
    time 0 = some { secs := timeSecs 0, nsecs := 0 } :=
  ⟨by decide, (time_fails_iff_out_of_range 0).2 (by decide)⟩

/-- C10: the timestamp normalizer is monotone non-decreasing — on the raw
second counts, on the returned calendar timestamps, and on whole lists: a
list sorted by raw store timestamp maps to a list sorted by normalized
second count, so the queries' ORDER BY on the raw column yields entities
sorted by their normalized timestamps. -/
theorem time_monotone :
    (∀ a b : Int, a ≤ b → timeSecs a ≤ timeSecs b) ∧
    (∀ a b : Int, ∀ da db : DateTime, a ≤ b →
      time a = some da → time b = some db → DateTime.le da db) ∧
    (∀ l : List Int, l.Pairwise (fun x y => x ≤ y) →
      (l.map timeSecs).Pairwise (fun x y => x ≤ y)) := by
  refine ⟨fun a b h => timeSecs_mono h, fun a b da db h ha hb => ?_, fun l hl => ?_⟩
  · unfold time fromTimestamp at ha hb
    have hda : da = { secs := timeSecs a, nsecs := 0 } := by
      by_cases hc : chronoMinTimestamp ≤ timeSecs a ∧ timeSecs a ≤ chronoMaxTimestamp
      · rw [if_pos hc] at ha
        exact (Option.some.inj ha).symm
      · rw [if_neg hc] at ha
        exact absurd ha (by simp)
    have hdb : db = { secs := timeSecs b, nsecs := 0 } := by
      by_cases hc : chronoMinTimestamp ≤ timeSecs b ∧ timeSecs b ≤ chronoMaxTimestamp
      · rw [if_pos hc] at hb
        exact (Option.some.inj hb).symm
      · rw [if_neg hc] at hb
        exact absurd hb (by simp)
    rw [hda, hdb]
    exact dateTime_le_of_le (timeSecs_mono h)
  · exact List.Pairwise.map timeSecs (fun a b h => timeSecs_mono h) hl

/-- Witness for C10: applied at raw values 3 and 2000000000 (normalized
second counts 978307200 and 978307202) and at a concrete sorted list. -/
theorem time_monotone_witness :
    timeSecs 3 ≤ timeSecs 2000000000 ∧
    DateTime.le { secs := 978307200, nsecs := 0 } { secs := 978307202, nsecs := 0 } ∧
    ([3, 2000000000].map timeSecs).Pairwise (fun x y => x ≤ y) :=
  ⟨time_monotone.1 3 2000000000 (by decide),
   time_monotone.2.1 3 2000000000 _ _ (by decide) (by decide) (by decide),
   time_monotone.2.2 [3, 2000000000] (by decide)⟩

/-- C4: on a well-formed store, the conversation list produced by the
conversation-list load is sorted by `last_active` in non-increasing order and
contains no two conversations with the same `name`. -/
theorem conversations_sorted_nodup (st : Store) (hwf : st.WF)
    (convs : List Chat) (h : list_conversations st = some convs) :
    convs.Pairwise (fun a b => DateTime.le b.last_active a.last_active) ∧
    (convs.map Chat.name).Nodup := by
  rw [list_conversations_eq hwf] at h
  have hc := Option.some.inj h
  subst hc
  constructor
  · apply List.Pairwise.map rowChat
    · intro a b hab
      exact dateTime_le_of_le (timeSecs_mono hab)
    · exact List.sorted_insertionSort chatRowGE (conversationGroups st)
  · rw [List.map_map]
    have hperm : ((conversationRows st).map (Chat.name ∘ rowChat)).Perm
        ((conversationGroups st).map (Chat.name ∘ rowChat)) :=
      List.Perm.map (Chat.name ∘ rowChat)
        (List.perm_insertionSort chatRowGE (conversationGroups st))
    rw [List.Perm.nodup_iff hperm]
    unfold conversationGroups
    rw [List.map_map]
    have hid : ((Chat.name ∘ rowChat) ∘ fun k =>
        ({ max_date := ((((chatJoinRows st).filter
              (fun r => decide (r.2 = k))).map Prod.fst).max?).getD 0
           chat_identifier := k } : ChatQueryRow)) = id := rfl
    rw [hid, List.map_id]
    exact List.nodup_dedup _

/-- A small concrete store used by the witnesses: two conversations, one
resolved handle, one unresolved handle (`handle_id` 99 matches no handle
row), and one sent message with NULL `handle_id`. -/
def sampleStore : Store :=
  { message :=
      [{ rowid := 1, text := "hi", date := 5000000000, handle_id := some 10, is_from_me := false },
       { rowid := 2, text := "yo", date := 1000000000, handle_id := none, is_from_me := true },
       { rowid := 3, text := "ok", date := 3000000000, handle_id := some 99, is_from_me := false }]
    chat := [{ rowid := 1, chat_identifier := "alice" }, { rowid := 2, chat_identifier := "bob" }]
    chat_message_join :=
      [{ chat_id := 1, message_id := 1 }, { chat_id := 2, message_id := 2 },
       { chat_id := 1, message_id := 3 }]
    handle := [{ rowid := 10, id := "alice@example.com" }] }

/-- The conversation list of `sampleStore`. -/
def sampleConvs : List Chat :=
  [{ name := "alice", last_active := { secs := 978307205, nsecs := 0 } },
   { name := "bob", last_active := { secs := 978307201, nsecs := 0 } }]

/-- The message list of `sampleStore`'s conversation "alice". -/
def sampleAliceMsgs : List Message :=
  [{ text := "ok", sender := Sender.SomeoneElse "", date := { secs := 978307203, nsecs := 0 } },
   { text := "hi", sender := Sender.SomeoneElse "alice@example.com",
     date := { secs := 978307205, nsecs := 0 } }]

/-- Witness for C4 at `sampleStore`. -/
theorem conversations_sorted_nodup_witness :
    sampleStore.WF ∧ list_conversations sampleStore = some sampleConvs ∧
    (sampleConvs.Pairwise (fun a b => DateTime.le b.last_active a.last_active) ∧
     (sampleConvs.map Chat.name).Nodup) :=
  ⟨by decide, by decide,
   conversations_sorted_nodup sampleStore (by decide) sampleConvs (by decide)⟩

/-- C5: on a well-formed store, the message list produced by the message load
for a conversation is sorted by `date` in non-decreasing order, and every
returned message's sender is either `Me` or `SomeoneElse` carrying a
counterpart identifier string — never anything ambiguous. -/
theorem messages_sorted_unambiguous (st : Store) (hwf : st.WF) (cid : String)
    (msgs : List Message) (h : list_messages st cid = some msgs) :
    msgs.Pairwise (fun a b => DateTime.le a.date b.date) ∧
    ∀ msg ∈ msgs, msg.sender = Sender.Me ∨ ∃ s, msg.sender = Sender.SomeoneElse s := by
  rw [list_messages_eq hwf] at h
  have hc := Option.some.inj h
  subst hc
  constructor
  · apply List.Pairwise.map rowMessage
    · intro a b hab
      exact dateTime_le_of_le (timeSecs_mono hab)
    · exact List.sorted_insertionSort msgRowLE (messageRows st cid)
  · intro msg hmsg
    obtain ⟨r, _, rfl⟩ := List.mem_map.mp hmsg
    by_cases hme : r.is_from_me
    · left
      simp [rowMessage, hme]
    · right
      exact ⟨decodeText r.sender, by simp [rowMessage, hme]⟩

/-- Witness for C5 at `sampleStore`, conversation "alice". -/
theorem messages_sorted_unambiguous_witness :
    sampleStore.WF ∧ list_messages sampleStore "alice" = some sampleAliceMsgs ∧
    (sampleAliceMsgs.Pairwise (fun a b => DateTime.le a.date b.date) ∧
     ∀ msg ∈ sampleAliceMsgs,
       msg.sender = Sender.Me ∨ ∃ s, msg.sender = Sender.SomeoneElse s) :=
  ⟨by decide, by decide,
   messages_sorted_unambiguous sampleStore (by decide) "alice" sampleAliceMsgs (by decide)⟩

/-- C6: a query row flagged `is_from_me` maps to a `Message` whose sender is
`Me`, regardless of the row's handle column — even when the handle is NULL or
unresolved the load succeeds (the driver decodes NULL text as `""`, which the
`is_from_me` branch ignores) and the resulting message is in the returned
list. -/
theorem from_me_maps_to_me (st : Store) (hwf : st.WF) (cid : String)
    (r : MessageQueryRow) (hr : r ∈ messageRows st cid) (hme : r.is_from_me = true) :
    (rowMessage r).sender = Sender.Me ∧
    ∃ msgs, list_messages st cid = some msgs ∧ rowMessage r ∈ msgs := by
  refine ⟨by simp [rowMessage, hme], _, list_messages_eq hwf cid, ?_⟩
  exact List.mem_map_of_mem rowMessage ((List.mem_insertionSort msgRowLE).mpr hr)

/-- The sent message row of `sampleStore`: `is_from_me` with NULL `handle_id`
(hence NULL `h.id` after the left join). -/
def fromMeRow : MessageQueryRow :=
  { text := "yo", date := 1000000000, sender := none, is_from_me := true }

/-- Witness for C6 at `sampleStore`, conversation "bob": a sent message whose
handle column is NULL. -/
theorem from_me_maps_to_me_witness :
    sampleStore.WF ∧ fromMeRow ∈ messageRows sampleStore "bob" ∧
    ((rowMessage fromMeRow).sender = Sender.Me ∧
     ∃ msgs, list_messages sampleStore "bob" = some msgs ∧ rowMessage fromMeRow ∈ msgs) :=
  ⟨by decide, by decide,
   from_me_maps_to_me sampleStore (by decide) "bob" fromMeRow (by decide) (by decide)⟩

/-- The received message row of `sampleStore` whose handle is unresolved
(`handle_id` 99 matches no handle row, so the left join yields NULL). -/
def unresolvedRow : MessageQueryRow :=
  { text := "ok", date := 3000000000, sender := none, is_from_me := false }

/-- C7 counterexample: at `sampleStore`, the unresolved-handle row's load
succeeds, but the produced sender carries the empty string — the silent
driver decoding of NULL — not an explicit placeholder identifier.  (The code
has no placeholder fallback at all; the claim's "explicit placeholder" does
not exist.) -/
theorem unresolved_handle_counterexample :
    unresolvedRow ∈ messageRows sampleStore "alice" ∧
    list_messages sampleStore "alice" = some sampleAliceMsgs ∧
    sampleAliceMsgs.head? = some (rowMessage unresolvedRow) ∧
    (rowMessage unresolvedRow).sender = Sender.SomeoneElse "" ∧
    (∀ s : String, (rowMessage unresolvedRow).sender = Sender.SomeoneElse s → s = "") := by
  refine ⟨by decide, by decide, by decide, by decide, fun s h => ?_⟩
  have h3 : (rowMessage unresolvedRow).sender = Sender.SomeoneElse "" := by decide
  rw [h3] at h
  exact (Sender.SomeoneElse.inj h).symm

/-- C7 (amended): a received message row whose handle cannot be resolved via
the left join does not make the load fail: the load still succeeds, and the
row maps to a `Message` whose sender is `SomeoneElse ""` — carrying the empty
string produced by the driver's decoding of the NULL `h.id`, rather than an
explicit placeholder identifier. -/
theorem unresolved_handle_still_loads (st : Store) (hwf : st.WF) (cid : String)
    (r : MessageQueryRow) (hr : r ∈ messageRows st cid)
    (hnotme : r.is_from_me = false) (hnull : r.sender = none) :
    ∃ msgs, list_messages st cid = some msgs ∧ rowMessage r ∈ msgs ∧
      (rowMessage r).sender = Sender.SomeoneElse "" := by
  refine ⟨_, list_messages_eq hwf cid, ?_, ?_⟩
  · exact List.mem_map_of_mem rowMessage ((List.mem_insertionSort msgRowLE).mpr hr)
  · simp [rowMessage, hnotme, hnull, decodeText]

/-- Witness for the amended C7 at `sampleStore`, conversation "alice". -/
theorem unresolved_handle_still_loads_witness :
    sampleStore.WF ∧ unresolvedRow ∈ messageRows sampleStore "alice" ∧
    ∃ msgs, list_messages sampleStore "alice" = some msgs ∧
      rowMessage unresolvedRow ∈ msgs ∧
      (rowMessage unresolvedRow).sender = Sender.SomeoneElse "" :=
  ⟨by decide, by decide,
   unresolved_handle_still_loads sampleStore (by decide) "alice" unresolvedRow
     (by decide) (by decide) (by decide)⟩
